import Mathlib

/-!
Verification of the xcp_d / xcp_abcd post-processing core against its
natural-language specification.

Each section shallowly embeds one piece of the repository:

* `DecimateData` — `_decimate_data` from `xcp_d/utils/plotting.py`.
* `PlotDesignMatrix` — `plot_design_matrix` from `xcp_d/utils/plotting.py`.
* `TRHandling` — the repetition-time defaulting in `plot_confounds` and
  `_carpet` from `xcp_d/utils/plotting.py`.
* `FmriEs` — the shape-check prefix of `plot_fmri_es` from
  `xcp_d/utils/plotting.py`.
* `FconWf` — the node and edge structure of `init_fcon_ts_wf` from
  `xcp_abcd/workflow/connectivity.py`.
* `Connectivity`, `Alff`, `Reho` — the Connectivity Estimator, ALFF
  Estimator and ReHo Estimator, modelled from the spec (their numerical
  code lives outside the provided sources; only tests and callers are
  available).
-/

namespace DecimateData

/-- Every `k`-th element of a list starting at index 0: models the numpy
slice `arr[::k]` for stride `k ≥ 1`.  `go l i` keeps the element when the
countdown `i` hits 0 and then restarts the countdown at `k - 1`. -/
def takeEvery (k : ℕ) (l : List α) : List α := go l 0 where
  go : List α → ℕ → List α
    | [], _ => []
    | a :: rest, 0 => a :: go rest (k - 1)
    | _ :: rest, n + 1 => go rest n

/-- `arr.shape[1]` of a row-major 2-D array modelled as a list of rows. -/
def shape1 (data : List (List ℚ)) : ℕ := data.headI.length

/-- `_decimate_data(data, seg_data, size)` from `xcp_d/utils/plotting.py`:
`p_dec = 1 + data.shape[0] // size[0]`, slice rows (and `seg_data`) by
`p_dec` when it is nonzero, then `t_dec = 1 + data.shape[1] // size[1]`
and slice columns by `t_dec` when it is nonzero. -/
def _decimate_data (data : List (List ℚ)) (seg_data : List ℚ) (size : ℕ × ℕ) :
    List (List ℚ) × List ℚ :=
  let p_dec := 1 + data.length / size.1
  let data1 := if p_dec ≠ 0 then takeEvery p_dec data else data
  let seg1 := if p_dec ≠ 0 then takeEvery p_dec seg_data else seg_data
  let t_dec := 1 + shape1 data1 / size.2
  let data2 := if t_dec ≠ 0 then data1.map (takeEvery t_dec) else data1
  (data2, seg1)

theorem takeEvery_go_length (k : ℕ) (hk : 0 < k) (l : List α) (i : ℕ) (hi : i ≤ k - 1) :
    (takeEvery.go k l i).length = (l.length + (k - 1) - i) / k := by
  induction l generalizing i with
  | nil =>
    simp only [takeEvery.go, List.length_nil, Nat.zero_add]
    rw [Nat.div_eq_of_lt (by omega)]
  | cons a rest ih =>
    cases i with
    | zero =>
      simp only [takeEvery.go, List.length_cons]
      rw [ih (k - 1) (le_refl _)]
      have h1 : rest.length + (k - 1) - (k - 1) = rest.length := by omega
      have h2 : rest.length + 1 + (k - 1) - 0 = rest.length + k := by omega
      rw [h1, h2, Nat.add_div_right _ hk, Nat.add_comm]
    | succ n =>
      simp only [takeEvery.go, List.length_cons]
      rw [ih n (by omega)]
      congr 1
      omega

theorem takeEvery_length (k : ℕ) (hk : 0 < k) (l : List α) :
    (takeEvery k l).length = (l.length + (k - 1)) / k := by
  unfold takeEvery
  rw [takeEvery_go_length k hk l 0 (Nat.zero_le _), Nat.sub_zero]

/-- The decimation stride `1 + n / s` always leaves at most `s` elements:
`⌈n / (1 + n / s)⌉ ≤ s`. -/
theorem decimated_le (n s : ℕ) (hs : 0 < s) :
    (n + ((1 + n / s) - 1)) / (1 + n / s) ≤ s := by
  have hp : 0 < 1 + n / s := Nat.lt_of_lt_of_le Nat.zero_lt_one (Nat.le_add_right 1 _)
  rw [Nat.div_le_iff_le_mul_add_pred hp]
  have hmod : n % s < s := Nat.mod_lt _ hs
  have key : n < (1 + n / s) * s := by
    calc n = s * (n / s) + n % s := (Nat.div_add_mod n s).symm
      _ < s * (n / s) + s := Nat.add_lt_add_left hmod _
      _ = (1 + n / s) * s := by ring
  exact Nat.add_le_add_right (Nat.le_of_lt key) _

theorem mem_takeEvery_go {x : α} (k : ℕ) :
    ∀ (l : List α) (i : ℕ), x ∈ takeEvery.go k l i → x ∈ l
  | [], _, h => by simp [takeEvery.go] at h
  | a :: rest, 0, h => by
      simp only [takeEvery.go, List.mem_cons] at h ⊢
      rcases h with h | h
      · exact Or.inl h
      · exact Or.inr (mem_takeEvery_go k rest (k - 1) h)
  | _ :: rest, n + 1, h => by
      simp only [takeEvery.go] at h
      exact List.mem_cons_of_mem _ (mem_takeEvery_go k rest n h)

theorem mem_takeEvery {x : α} (k : ℕ) (l : List α) (h : x ∈ takeEvery k l) : x ∈ l :=
  mem_takeEvery_go k l 0 h

theorem one_add_ne_zero (m : ℕ) : 1 + m ≠ 0 := by omega

theorem _decimate_data_eq (data : List (List ℚ)) (seg : List ℚ) (s0 s1 : ℕ) :
    _decimate_data data seg (s0, s1) =
      ((takeEvery (1 + data.length / s0) data).map
          (takeEvery (1 + shape1 (takeEvery (1 + data.length / s0) data) / s1)),
        takeEvery (1 + data.length / s0) seg) := by
  simp [_decimate_data, one_add_ne_zero]

/-- C9: `_decimate_data` keeps the first dimensions of `data` and `seg_data`
equal, returns at most `size[0]` rows and at most `size[1]` columns, both
strides are at least 1, and a nonempty input never loses all its rows. -/
theorem decimate_data_ok (data : List (List ℚ)) (seg : List ℚ) (s0 s1 c : ℕ)
    (h0 : 0 < s0) (h1 : 0 < s1) (hseg : seg.length = data.length)
    (hc : ∀ row ∈ data, row.length = c) :
    (_decimate_data data seg (s0, s1)).2.length = (_decimate_data data seg (s0, s1)).1.length
    ∧ (_decimate_data data seg (s0, s1)).1.length ≤ s0
    ∧ (∀ row ∈ (_decimate_data data seg (s0, s1)).1, row.length ≤ s1)
    ∧ 0 < 1 + data.length / s0
    ∧ 0 < 1 + shape1 (takeEvery (1 + data.length / s0) data) / s1
    ∧ (data ≠ [] → (_decimate_data data seg (s0, s1)).1 ≠ []) := by
  have hp : 0 < 1 + data.length / s0 :=
    Nat.lt_of_lt_of_le Nat.zero_lt_one (Nat.le_add_right 1 _)
  have ht : 0 < 1 + shape1 (takeEvery (1 + data.length / s0) data) / s1 :=
    Nat.lt_of_lt_of_le Nat.zero_lt_one (Nat.le_add_right 1 _)
  rw [_decimate_data_eq]
  refine ⟨?_, ?_, ?_, hp, ht, ?_⟩
  · rw [List.length_map, takeEvery_length _ hp, takeEvery_length _ hp, hseg]
  · rw [List.length_map, takeEvery_length _ hp]
    exact decimated_le data.length s0 h0
  · intro row hrow
    rw [List.mem_map] at hrow
    obtain ⟨r, hr, hrEq⟩ := hrow
    have hrmem : r ∈ data := mem_takeEvery _ data hr
    have hrc : r.length = c := hc r hrmem
    subst hrEq
    rw [takeEvery_length _ ht, hrc]
    -- the column count of the row-decimated array equals c on a nonempty input
    cases data with
    | nil => exact absurd hrmem (List.not_mem_nil r)
    | cons d rest =>
      have hhead : shape1 (takeEvery (1 + (d :: rest).length / s0) (d :: rest)) = d.length := by
        simp [takeEvery, takeEvery.go, shape1]
      rw [hhead, hc d (List.mem_cons_self d rest)]
      exact decimated_le c s1 h1
  · intro hne
    cases data with
    | nil => exact absurd rfl hne
    | cons d rest => simp [takeEvery, takeEvery.go]

/-- Witness for C9 at concrete input `data = [[1,2,3],[4,5,6]]`,
`seg_data = [7,8]`, `size = (2,2)`. -/
theorem decimate_data_ok_witness :
    (0 : ℕ) < 2 ∧ ([(7 : ℚ), 8] : List ℚ).length = [[(1 : ℚ), 2, 3], [4, 5, 6]].length
    ∧ (∀ row ∈ [[(1 : ℚ), 2, 3], [4, 5, 6]], row.length = 3)
    ∧ (_decimate_data [[(1 : ℚ), 2, 3], [4, 5, 6]] [7, 8] (2, 2)).2.length =
        (_decimate_data [[(1 : ℚ), 2, 3], [4, 5, 6]] [7, 8] (2, 2)).1.length
    ∧ (_decimate_data [[(1 : ℚ), 2, 3], [4, 5, 6]] [7, 8] (2, 2)).1.length ≤ 2 := by
  refine ⟨by decide, by decide, by decide, ?_, ?_⟩
  · exact (decimate_data_ok [[(1 : ℚ), 2, 3], [4, 5, 6]] [7, 8] 2 2 3 (by decide) (by decide)
      (by decide) (by decide)).1
  · exact (decimate_data_ok [[(1 : ℚ), 2, 3], [4, 5, 6]] [7, 8] 2 2 3 (by decide) (by decide)
      (by decide) (by decide)).2.1

end DecimateData

namespace PlotDesignMatrix

/-- `np.where(flags)[0]`: the indices of the true entries of the
`framewise_displacement` column, in order.  `go flags i` walks the list
keeping the running index. -/
def outlierIdx (flags : List Bool) : List ℕ := go flags 0 where
  go : List Bool → ℕ → List ℕ
    | [], _ => []
    | b :: rest, i => if b then i :: go rest (i + 1) else go rest (i + 1)

/-- `censoring_df["framewise_displacement"].sum()` for a 0/1 column. -/
def n_outliers (flags : List Bool) : ℕ :=
  (flags.map (fun b => if b then 1 else 0)).sum

/-- `col.set r 1`: models `new_df.loc[outlier_row, outlier_col] = 1` on one
column of the all-zeros `new_df`. -/
def setOne (col : List ℚ) (r : ℕ) : List ℚ := col.set r 1

/-- The outlier columns built by `plot_design_matrix`
(`xcp_d/utils/plotting.py`): an all-zeros `(n_rows, n_outliers)` frame in
which the loop `for i_outlier, outlier_col in enumerate(new_df.columns)`
sets entry `outlier_idx[i_outlier]` of column `i_outlier` to 1.  Each loop
iteration touches a distinct column, so the loop is a map over the column
index. -/
def newCols (flags : List Bool) : List (List ℚ) :=
  (List.range (n_outliers flags)).map
    (fun i => setOne (List.replicate flags.length 0) ((outlierIdx flags).getD i 0))

/-- `plot_design_matrix` restricted to its data transformation: the design
matrix (as a list of columns; `pd.concat(..., axis=1)` appends columns) is
returned unchanged without a censoring file, and extended with the outlier
columns when a censoring file is given. -/
def plot_design_matrix (designCols : List (List ℚ)) (flags : Option (List Bool)) :
    List (List ℚ) :=
  match flags with
  | none => designCols
  | some fl => designCols ++ newCols fl

theorem outlierIdx_go_length (flags : List Bool) :
    ∀ i, (outlierIdx.go flags i).length = n_outliers flags := by
  induction flags with
  | nil => intro i; simp [outlierIdx.go, n_outliers]
  | cons b rest ih =>
    intro i
    cases b <;> simp [outlierIdx.go, n_outliers, ih (i + 1)]
    omega

theorem outlierIdx_length (flags : List Bool) :
    (outlierIdx flags).length = n_outliers flags :=
  outlierIdx_go_length flags 0

/-- Entries of one outlier column: 1 exactly at row `r`, 0 at every other
row below `n`. -/
theorem setOne_replicate_getD (n r j : ℕ) (hr : r < n) (hj : j < n) :
    (setOne (List.replicate n (0 : ℚ)) r).getD j 0 = if j = r then 1 else 0 := by
  unfold setOne
  rcases eq_or_ne j r with h | h
  · subst h
    simp [List.getD, List.getElem?_set_self, hr ,List.length_replicate]
  · simp [List.getD, List.getElem?_set_ne (Ne.symm h), h, List.getElem?_replicate, hj]

theorem outlierIdx_go_lt (flags : List Bool) :
    ∀ i x, x ∈ outlierIdx.go flags i → x < i + flags.length := by
  induction flags with
  | nil => intro i x hx; simp [outlierIdx.go] at hx
  | cons b rest ih =>
    intro i x hx
    cases b with
    | false =>
      rw [show outlierIdx.go (false :: rest) i = outlierIdx.go rest (i + 1) from rfl] at hx
      have := ih (i + 1) x hx
      simp only [List.length_cons]
      omega
    | true =>
      rw [show outlierIdx.go (true :: rest) i = i :: outlierIdx.go rest (i + 1) from rfl,
        List.mem_cons] at hx
      rcases hx with h | h
      · subst h; simp only [List.length_cons]; omega
      · have := ih (i + 1) x h
        simp only [List.length_cons]
        omega

theorem outlierIdx_lt (flags : List Bool) (x : ℕ) (hx : x ∈ outlierIdx flags) :
    x < flags.length := by
  have := outlierIdx_go_lt flags 0 x hx
  omega

theorem outlierIdx_getD_lt (flags : List Bool) (i : ℕ) (hi : i < n_outliers flags) :
    (outlierIdx flags).getD i 0 < flags.length := by
  apply outlierIdx_lt
  have hlen : i < (outlierIdx flags).length := by rw [outlierIdx_length]; exact hi
  rw [List.getD_eq_getElem?_getD, List.getElem?_eq_getElem hlen]
  exact List.getElem_mem _

theorem newCols_getD (flags : List Bool) (i : ℕ) (hi : i < n_outliers flags) :
    (newCols flags).getD i [] =
      setOne (List.replicate flags.length 0) ((outlierIdx flags).getD i 0) := by
  unfold newCols
  rw [List.getD_eq_getElem?_getD, List.getElem?_map, List.getElem?_range hi]
  rfl

/-- C10: with a censoring file, `plot_design_matrix` returns the input
design matrix extended with exactly `n_outliers` extra columns, where
`n_outliers` is the sum of the `framewise_displacement` flags, and the
`i`-th added column is the indicator vector of the row of the `i`-th
censored volume: a single 1 there and 0 at every other row. -/
theorem plot_design_matrix_ok (design : List (List ℚ)) (flags : List Bool) :
    (plot_design_matrix design (some flags)).length = design.length + n_outliers flags
    ∧ (plot_design_matrix design (some flags)).take design.length = design
    ∧ ∀ i, i < n_outliers flags → ∀ j, j < flags.length →
        ((plot_design_matrix design (some flags)).getD (design.length + i) []).getD j 0 =
          if j = (outlierIdx flags).getD i 0 then 1 else 0 := by
  refine ⟨?_, ?_, ?_⟩
  · simp [plot_design_matrix, newCols]
  · simp [plot_design_matrix]
  · intro i hi j hj
    have hcol : (plot_design_matrix design (some flags)).getD (design.length + i) [] =
        (newCols flags).getD i [] := by
      unfold plot_design_matrix
      rw [List.getD_eq_getElem?_getD, List.getD_eq_getElem?_getD,
        List.getElem?_append_right (Nat.le_add_right _ _), Nat.add_sub_cancel_left]
    rw [hcol, newCols_getD flags i hi]
    exact setOne_replicate_getD flags.length ((outlierIdx flags).getD i 0) j
      (outlierIdx_getD_lt flags i hi) hj

/-- Witness for C10 at `design = [[1,2,3]]` (one column),
`flags = [false, true, true]`: two outlier columns are appended and the
first of them has its single 1 at row 1. -/
theorem plot_design_matrix_ok_witness :
    (0 : ℕ) < n_outliers [false, true, true]
    ∧ (1 : ℕ) < ([false, true, true] : List Bool).length
    ∧ (plot_design_matrix [[(1 : ℚ), 2, 3]] (some [false, true, true])).length = 1 + 2
    ∧ ((plot_design_matrix [[(1 : ℚ), 2, 3]] (some [false, true, true])).getD (1 + 0) []).getD 1 0
        = if 1 = (outlierIdx [false, true, true]).getD 0 0 then 1 else 0 := by
  refine ⟨by decide, by decide, ?_, ?_⟩
  · have h := (plot_design_matrix_ok [[(1 : ℚ), 2, 3]] [false, true, true]).1
    simpa using h
  · have h := (plot_design_matrix_ok [[(1 : ℚ), 2, 3]] [false, true, true]).2.2 0 (by decide)
      1 (by decide)
    simpa using h

end PlotDesignMatrix

namespace TRHandling

/-- The repetition-time handling at the top of `plot_confounds`
(`xcp_d/utils/plotting.py`): `if TR is None: no_repetition_time = True;
TR = 1.0`.  The result is the effective TR together with the
`no_repetition_time` flag (when the flag is set the x-axis is labelled in
frames instead of seconds); the function never raises. -/
def plot_confounds_TR (TR : Option ℚ) : Except String (ℚ × Bool) :=
  match TR with
  | none => .ok (1, true)
  | some t => .ok (t, false)

/-- The repetition-time handling at the top of `_carpet`
(`xcp_d/utils/plotting.py`): `if TR is None: TR = 1.0  # Default TR`;
no error path exists. -/
def carpet_TR (TR : Option ℚ) : Except String ℚ :=
  match TR with
  | none => .ok 1
  | some t => .ok t

/-- C5 counterexample: at the concrete input `TR = None`, neither
`plot_confounds` nor `_carpet` fails; both silently substitute the default
repetition time 1.0 (the claim says a missing TR is a fatal configuration
error and that no operation substitutes a default such as 1.0). -/
theorem tr_default_counterexample :
    plot_confounds_TR none = .ok (1, true) ∧ carpet_TR none = .ok 1 :=
  ⟨rfl, rfl⟩

/-- C5 amended: when the repetition time is missing, the plotting
operations in `xcp_d/utils/plotting.py` substitute a default TR of 1.0 and
raise no error; `plot_confounds` additionally records the absence so the
x-axis is labelled in frames rather than seconds, while `_carpet` uses the
default 1.0 directly. -/
theorem tr_default_amended :
    plot_confounds_TR none = .ok (1, true)
    ∧ (∀ t, plot_confounds_TR (some t) = .ok (t, false))
    ∧ carpet_TR none = .ok 1
    ∧ (∀ t, carpet_TR (some t) = .ok t) :=
  ⟨rfl, fun _ => rfl, rfl, fun _ => rfl⟩

end TRHandling

namespace FmriEs

/-- Data-touching operations of `plot_fmri_es` (`xcp_d/utils/plotting.py`),
in the order the function performs them. -/
inductive ESOp where
  | trimDummy : ESOp
  | computeDvars : ℕ → ESOp
  | scaleData : ESOp
  | plotFigure : ESOp
deriving DecidableEq, Repr

/-- `preprocessed_bold_arr = preprocessed_bold_arr[:, dummy_scans:]`
applied `if dummy_scans > 0`, on shapes. -/
def esEffShape (shape_pre : ℕ × ℕ) (dummy_scans : ℕ) : ℕ × ℕ :=
  if dummy_scans > 0 then (shape_pre.1, shape_pre.2 - dummy_scans) else shape_pre

/-- `if not isinstance(dvars, np.ndarray): dvars = compute_dvars(arr)`, on
shapes; returns the DVARS length together with the operations it ran. -/
def esDvars (dvarsLen : ℕ × ℕ → ℕ) (provided : Option ℕ) (shape : ℕ × ℕ) (idx : ℕ) :
    ℕ × List ESOp :=
  match provided with
  | some d => (d, [])
  | none => (dvarsLen shape, [.computeDvars idx])

/-- The prefix of `plot_fmri_es` up to and including its two shape checks,
over array shapes `(n_units, n_timepoints)`.  `dvarsLen` abstracts the
shape of `compute_dvars`'s output as a function of the input array shape
(its code is external to the plotting module).  Returns the trace of
operations performed, and either the error payload — the list of the three
array shapes embedded in the `ValueError` message — or unit on success. -/
def plot_fmri_es (dvarsLen : ℕ × ℕ → ℕ)
    (shape_pre shape_unc shape_filt : ℕ × ℕ) (dummy_scans : ℕ)
    (dvars_pre dvars_unc dvars_filt : Option ℕ) :
    List ESOp × Except (List (ℕ × ℕ)) Unit :=
  let sp := esEffShape shape_pre dummy_scans
  let trace0 : List ESOp := if dummy_scans > 0 then [.trimDummy] else []
  let d1 := esDvars dvarsLen dvars_pre sp 0
  let d2 := esDvars dvarsLen dvars_unc shape_unc 1
  let d3 := esDvars dvarsLen dvars_filt shape_filt 2
  let trace := trace0 ++ d1.2 ++ d2.2 ++ d3.2
  if ¬(d1.1 = d2.1 ∧ d2.1 = d3.1) then
    (trace, .error [sp, shape_unc, shape_filt])
  else if ¬(sp = shape_unc ∧ shape_unc = shape_filt) then
    (trace, .error [sp, shape_unc, shape_filt])
  else
    (trace ++ [.scaleData, .plotFigure, .plotFigure], .ok ())

/-- C3 counterexample: for mismatched shapes `(10,5)` vs `(10,6)` with no
precomputed DVARS, `plot_fmri_es` does raise an error naming the three
shapes, but only after computing DVARS on all three arrays — computation on
the data proceeds before the error is raised, contradicting the claim that
the error comes before any computation. -/
theorem plot_fmri_es_counterexample :
    plot_fmri_es Prod.snd (10, 5) (10, 6) (10, 6) 0 none none none =
      ([.computeDvars 0, .computeDvars 1, .computeDvars 2],
        .error [(10, 5), (10, 6), (10, 6)]) := by
  rfl

/-- C3 amended: whenever the three (dummy-trimmed) array shapes are not all
equal, `plot_fmri_es` raises a fatal error whose payload names the three
conflicting shapes, and the only operations performed on the data before
the error are dummy-scan trimming and DVARS computation — no scaling or
plotting happens; the check is therefore before the summary computations
but after DVARS. -/
theorem esDvars_trace (dvarsLen : ℕ × ℕ → ℕ) (provided : Option ℕ) (shape : ℕ × ℕ)
    (idx : ℕ) (op : ESOp) (hop : op ∈ (esDvars dvarsLen provided shape idx).2) :
    op = .computeDvars idx := by
  cases provided with
  | none => simpa [esDvars] using hop
  | some d => simp [esDvars] at hop

theorem plot_fmri_es_shape_check (dvarsLen : ℕ × ℕ → ℕ)
    (shape_pre shape_unc shape_filt : ℕ × ℕ) (dummy_scans : ℕ)
    (dvars_pre dvars_unc dvars_filt : Option ℕ)
    (hmm : ¬(esEffShape shape_pre dummy_scans = shape_unc ∧ shape_unc = shape_filt)) :
    (plot_fmri_es dvarsLen shape_pre shape_unc shape_filt dummy_scans
        dvars_pre dvars_unc dvars_filt).2 =
      .error [esEffShape shape_pre dummy_scans, shape_unc, shape_filt]
    ∧ ∀ op ∈ (plot_fmri_es dvarsLen shape_pre shape_unc shape_filt dummy_scans
        dvars_pre dvars_unc dvars_filt).1,
        op = .trimDummy ∨ ∃ i, op = .computeDvars i := by
  have hred : plot_fmri_es dvarsLen shape_pre shape_unc shape_filt dummy_scans
      dvars_pre dvars_unc dvars_filt =
      ((if dummy_scans > 0 then [ESOp.trimDummy] else [])
          ++ (esDvars dvarsLen dvars_pre (esEffShape shape_pre dummy_scans) 0).2
          ++ (esDvars dvarsLen dvars_unc shape_unc 1).2
          ++ (esDvars dvarsLen dvars_filt shape_filt 2).2,
        .error [esEffShape shape_pre dummy_scans, shape_unc, shape_filt]) := by
    by_cases hc1 : ((esDvars dvarsLen dvars_pre (esEffShape shape_pre dummy_scans) 0).1
        = (esDvars dvarsLen dvars_unc shape_unc 1).1
      ∧ (esDvars dvarsLen dvars_unc shape_unc 1).1
        = (esDvars dvarsLen dvars_filt shape_filt 2).1)
    · simp only [plot_fmri_es]
      rw [if_neg (not_not_intro hc1), if_pos hmm]
    · simp only [plot_fmri_es]
      rw [if_pos hc1]
  constructor
  · rw [hred]
  · intro op hop
    rw [hred] at hop
    have htrace : op ∈ (if dummy_scans > 0 then [ESOp.trimDummy] else [])
        ++ (esDvars dvarsLen dvars_pre (esEffShape shape_pre dummy_scans) 0).2
        ++ (esDvars dvarsLen dvars_unc shape_unc 1).2
        ++ (esDvars dvarsLen dvars_filt shape_filt 2).2 := hop
    simp only [List.append_assoc, List.mem_append] at htrace
    rcases htrace with h0 | h1 | h2 | h3
    · left
      split at h0
      · simpa using h0
      · simp at h0
    · right; exact ⟨0, esDvars_trace _ _ _ _ _ h1⟩
    · right; exact ⟨1, esDvars_trace _ _ _ _ _ h2⟩
    · right; exact ⟨2, esDvars_trace _ _ _ _ _ h3⟩

/-- Witness for the amended C3 theorem at the counterexample's input. -/
theorem plot_fmri_es_shape_check_witness :
    ¬(esEffShape (10, 5) 0 = (10, 6) ∧ (10, 6) = ((10, 6) : ℕ × ℕ))
    ∧ (plot_fmri_es Prod.snd (10, 5) (10, 6) (10, 6) 0 none none none).2 =
        .error [esEffShape (10, 5) 0, (10, 6), (10, 6)] := by
  refine ⟨by decide, ?_⟩
  exact (plot_fmri_es_shape_check Prod.snd (10, 5) (10, 6) (10, 6) 0 none none none
    (by decide)).1

end FmriEs

namespace FconWf

/-- Does the character list `needle` start the character list `hay`? -/
def startsList : List Char → List Char → Bool
  | [], _ => true
  | _ :: _, [] => false
  | a :: as, b :: bs => a = b && startsList as bs

/-- Python's `needle in hay` substring test, over character lists. -/
def containsSub (needle : List Char) : List Char → Bool
  | [] => needle.isEmpty
  | c :: rest => startsList needle (c :: rest) || containsSub needle rest

/-- The `transforms` argument of `ApplyTransformsx`, which in
`init_fcon_ts_wf` is either the string `'identity'`, a single transform
file, or a list of exactly two transform files — an explicit three-case
union, per the branch at `connectivity.py` lines 121–128. -/
inductive TransformSpec where
  | identity : TransformSpec
  | single : String → TransformSpec
  | pair : String → String → TransformSpec
deriving DecidableEq, Repr

/-- Python's `needle in hay` on strings. -/
def strIn (needle hay : String) : Bool := containsSub needle.toList hay.toList

/-- `transformfile` selection in `init_fcon_ts_wf`
(`xcp_abcd/workflow/connectivity.py` lines 121–128): identity when
`brain_template in file_base`, the single `mni_to_t1w` transform when
`'T1w' in file_base`, and the composed pair `[mni_to_t1w, t1w_to_native]`
otherwise. -/
def transformfile (brain_template file_base mni_to_t1w t1w_to_native : String) :
    TransformSpec :=
  if strIn brain_template file_base then .identity
  else if strIn "T1w" file_base then .single mni_to_t1w
  else .pair mni_to_t1w t1w_to_native

/-- One `ApplyTransformsx` node of `init_fcon_ts_wf`, keeping the fields
the claims are about: node name, input atlas (identified by the
`atlasname` passed to `get_atlas_nifti`), interpolation, transforms. -/
structure TransformNodeCfg where
  name : String
  input_image : String
  interpolation : String
  transforms : TransformSpec
deriving DecidableEq, Repr

/-- The four atlas-resampling nodes of `init_fcon_ts_wf`
(`connectivity.py` lines 130–147), all constructed with
`interpolation='NearestNeighbor'` and the shared `transformfile`. -/
def fcon_transform_nodes (tf : TransformSpec) : List TransformNodeCfg :=
  [⟨"apply_tranform_sc27", "schaefer200x17", "NearestNeighbor", tf⟩,
   ⟨"apply_tranform_sc47", "schaefer400x17", "NearestNeighbor", tf⟩,
   ⟨"apply_tranform_gs36", "glasser360", "NearestNeighbor", tf⟩,
   ⟨"apply_tranform_gd33", "gordon333", "NearestNeighbor", tf⟩]

/-- One nipype connection `(src, srcPort) → (dst, dstPort)`. -/
structure Link where
  src : String
  srcPort : String
  dst : String
  dstPort : String
deriving DecidableEq, Repr

/-- The full `workflow.connect([...])` edge list of `init_fcon_ts_wf`
(`connectivity.py` lines 160–200), with every `(srcport, dstport)` pair
expanded into one `Link`. -/
def fcon_connections : List Link :=
  [⟨"inputnode", "ref_file", "apply_tranform_sc27", "reference_image"⟩,
   ⟨"inputnode", "ref_file", "apply_tranform_sc47", "reference_image"⟩,
   ⟨"inputnode", "ref_file", "apply_tranform_gs36", "reference_image"⟩,
   ⟨"inputnode", "ref_file", "apply_tranform_gd33", "reference_image"⟩,
   ⟨"inputnode", "clean_bold", "sc27_connect", "regressed_file"⟩,
   ⟨"inputnode", "clean_bold", "sc47_connect", "regressed_file"⟩,
   ⟨"inputnode", "clean_bold", "gd33_connect", "regressed_file"⟩,
   ⟨"inputnode", "clean_bold", "gs36_connect", "regressed_file"⟩,
   ⟨"apply_tranform_sc27", "output_image", "sc27_connect", "atlas"⟩,
   ⟨"apply_tranform_sc47", "output_image", "sc47_connect", "atlas"⟩,
   ⟨"apply_tranform_gd33", "output_image", "gd33_connect", "atlas"⟩,
   ⟨"apply_tranform_gs36", "output_image", "gs36_connect", "atlas"⟩,
   ⟨"sc27_connect", "time_series_tsv", "outputnode", "sc217_ts"⟩,
   ⟨"sc27_connect", "fcon_matrix_tsv", "outputnode", "sc217_fc"⟩,
   ⟨"sc47_connect", "time_series_tsv", "outputnode", "sc417_ts"⟩,
   ⟨"sc47_connect", "fcon_matrix_tsv", "outputnode", "sc417_fc"⟩,
   ⟨"gs36_connect", "time_series_tsv", "outputnode", "gs360_ts"⟩,
   ⟨"gs36_connect", "fcon_matrix_tsv", "outputnode", "gs360_fc"⟩,
   ⟨"gs36_connect", "time_series_tsv", "outputnode", "gd333_ts"⟩,
   ⟨"gs36_connect", "fcon_matrix_tsv", "outputnode", "gd333_fc"⟩,
   ⟨"sc27_connect", "time_series_tsv", "matrix_plot_wf", "sc217_timeseries"⟩,
   ⟨"sc47_connect", "time_series_tsv", "matrix_plot_wf", "sc417_timeseries"⟩,
   ⟨"gs36_connect", "time_series_tsv", "matrix_plot_wf", "gd333_timeseries"⟩,
   ⟨"gs36_connect", "time_series_tsv", "matrix_plot_wf", "gs360_timeseries"⟩,
   ⟨"matrix_plot_wf", "connectplot", "outputnode", "connectplot"⟩]

/-- The nodes that feed the given `outputnode` field. -/
def producersOf (port : String) : List String :=
  (fcon_connections.filter (fun l => l.dst == "outputnode" && l.dstPort == port)).map
    (fun l => l.src)

/-- The nodes whose output feeds the `atlas` input of the given
`nifticonnect` node. -/
def atlasSourceOf (node : String) : List String :=
  (fcon_connections.filter (fun l => l.dst == node && l.dstPort == "atlas")).map
    (fun l => l.src)

/-- The atlas resampled by the named transform node (`none` when the name
is not a transform node). -/
def atlasOfTransformNode (tf : TransformSpec) (name : String) : Option String :=
  ((fcon_transform_nodes tf).find? (fun n => n.name == name)).map
    (fun n => n.input_image)

/-- C1 (code bug): in `init_fcon_ts_wf` the `gd333_ts`/`gd333_fc` outputs —
documented as the gordon-333 time series and connectivity matrix — are
produced by `gs36_connect`, the node whose `atlas` input is the resampled
glasser-360 parcellation, while the gordon-333 node `gd33_connect` feeds
no `outputnode` field at all (and the matrix-plot input named
`gd333_timeseries` also comes from `gs36_connect`). -/
theorem gd333_outputs_wired_to_glasser :
    producersOf "gd333_ts" = ["gs36_connect"]
    ∧ producersOf "gd333_fc" = ["gs36_connect"]
    ∧ atlasSourceOf "gs36_connect" = ["apply_tranform_gs36"]
    ∧ atlasOfTransformNode .identity "apply_tranform_gs36" = some "glasser360"
    ∧ atlasSourceOf "gd33_connect" = ["apply_tranform_gd33"]
    ∧ atlasOfTransformNode .identity "apply_tranform_gd33" = some "gordon333"
    ∧ fcon_connections.filter
        (fun l => l.src == "gd33_connect" && l.dst == "outputnode") = []
    ∧ (fcon_connections.filter
        (fun l => l.src == "gd33_connect" && l.dst == "matrix_plot_wf")) = [] := by
  refine ⟨rfl, rfl, rfl, rfl, rfl, rfl, rfl, rfl⟩

/-- C6: every atlas-resampling node of `init_fcon_ts_wf` is configured with
nearest-neighbor interpolation, for every transform selection; no node
uses linear, cubic, or any other interpolation. -/
theorem all_transform_nodes_nearest_neighbor (tf : TransformSpec) :
    ∀ n ∈ fcon_transform_nodes tf, n.interpolation = "NearestNeighbor" := by
  intro n hn
  simp only [fcon_transform_nodes, List.mem_cons, List.not_mem_nil, or_false] at hn
  rcases hn with h | h | h | h <;> subst h <;> rfl

/-- Witness for C6 at `tf = identity` and the schaefer-200 node. -/
theorem all_transform_nodes_nearest_neighbor_witness :
    (⟨"apply_tranform_sc27", "schaefer200x17", "NearestNeighbor",
        TransformSpec.identity⟩ : TransformNodeCfg) ∈
      fcon_transform_nodes .identity
    ∧ (⟨"apply_tranform_sc27", "schaefer200x17", "NearestNeighbor",
        TransformSpec.identity⟩ : TransformNodeCfg).interpolation = "NearestNeighbor" :=
  ⟨List.mem_cons_self _ _,
    all_transform_nodes_nearest_neighbor .identity _ (List.mem_cons_self _ _)⟩

/-- C7: the transform applied when resampling an atlas is always exactly
one of identity / single mapping / composed pair of mappings, selected by
the target file's space: identity when the bold file name carries the
template space, the single MNI→T1w transform when it carries `T1w`, and
the composed `[mni_to_t1w, t1w_to_native]` pair otherwise; no other arity
occurs. -/
theorem transformfile_cases (brain_template file_base mni_to_t1w t1w_to_native : String) :
    (transformfile brain_template file_base mni_to_t1w t1w_to_native = .identity
      ∨ transformfile brain_template file_base mni_to_t1w t1w_to_native = .single mni_to_t1w
      ∨ transformfile brain_template file_base mni_to_t1w t1w_to_native =
          .pair mni_to_t1w t1w_to_native)
    ∧ (transformfile brain_template file_base mni_to_t1w t1w_to_native = .identity
        ↔ strIn brain_template file_base = true)
    ∧ (transformfile brain_template file_base mni_to_t1w t1w_to_native = .single mni_to_t1w
        ↔ (strIn brain_template file_base = false ∧ strIn "T1w" file_base = true))
    ∧ (transformfile brain_template file_base mni_to_t1w t1w_to_native =
          .pair mni_to_t1w t1w_to_native
        ↔ (strIn brain_template file_base = false ∧ strIn "T1w" file_base = false)) := by
  by_cases h1 : strIn brain_template file_base = true <;>
    by_cases h2 : strIn "T1w" file_base = true <;>
    simp [transformfile, h1, h2]

end FconWf

namespace Connectivity

/-!
Modelled from the spec: the Connectivity Estimator (`correlate`, spec §4.3)
is implemented by the `nifticonnect` interface / Workbench correlation,
whose numerical code is not among the provided sources; the model follows
the spec's words: rows are mean-centered, each entry is the dot product of
the two centered rows divided by the product of the two rows' standard
deviations, and degenerate rows (zero variance or the all-NaN rows emitted
for empty regions, §4.2) propagate NaN — modelled as `none` — instead of
raising.
-/

noncomputable def mean {T : ℕ} (f : Fin T → ℝ) : ℝ := (∑ t, f t) / T

noncomputable def centered {T : ℕ} (f : Fin T → ℝ) : Fin T → ℝ := fun t => f t - mean f

/-- Squared norm of the mean-centered row; zero iff the row has zero
variance. -/
noncomputable def sqnorm {T : ℕ} (f : Fin T → ℝ) : ℝ := ∑ t, centered f t ^ 2

/-- Standard deviation of a row up to the constant `1/√T`, which cancels in
the correlation quotient. -/
noncomputable def sd {T : ℕ} (f : Fin T → ℝ) : ℝ := Real.sqrt (sqnorm f)

/-- One row of a Region Time Series: either the all-NaN row emitted for a
region with no assigned units (spec §4.2), or a vector of reals. -/
inductive Row (T : ℕ) where
  | nan : Row T
  | vals : (Fin T → ℝ) → Row T

/-- A region row is degenerate when it is the all-NaN row or has zero
variance. -/
def degenerateRow {T : ℕ} : Row T → Prop
  | .nan => True
  | .vals f => sqnorm f = 0

/-- `correlate(region_time_series) -> connectivity_matrix` (spec §4.3): the
R×R Pearson product-moment correlation matrix; `none` models a NaN entry. -/
noncomputable def correlate {R T : ℕ} (X : Fin R → Row T) : Fin R → Fin R → Option ℝ :=
  fun i j =>
    match X i, X j with
    | .vals f, .vals g =>
        if sqnorm f = 0 ∨ sqnorm g = 0 then none
        else some ((∑ t, centered f t * centered g t) / (sd f * sd g))
    | _, _ => none

theorem sqnorm_nonneg {T : ℕ} (f : Fin T → ℝ) : 0 ≤ sqnorm f :=
  Finset.sum_nonneg fun _ _ => sq_nonneg _

theorem sum_centered_mul_self {T : ℕ} (f : Fin T → ℝ) :
    ∑ t, centered f t * centered f t = sqnorm f := by
  unfold sqnorm
  exact Finset.sum_congr rfl fun t _ => (pow_two (centered f t)).symm

/-- C2: the connectivity matrix produced from an R-row region time series
is square R×R (by the type `Fin R → Fin R → Option ℝ`) and symmetric, and
each diagonal entry equals 1 exactly when the region row is
non-degenerate, and is NaN (`none`) exactly when the row is degenerate
(zero variance or all-NaN). -/
theorem correlate_symm_diag (R T : ℕ) (X : Fin R → Row T) :
    (∀ i j, correlate X i j = correlate X j i)
    ∧ (∀ i, (correlate X i i = none ↔ degenerateRow (X i))
        ∧ (correlate X i i = some 1 ↔ ¬degenerateRow (X i))) := by
  constructor
  · intro i j
    cases hXi : X i with
    | nan => cases hXj : X j <;> simp [correlate, hXi, hXj]
    | vals f =>
      cases hXj : X j with
      | nan => simp [correlate, hXi, hXj]
      | vals g =>
        simp only [correlate, hXi, hXj]
        refine if_congr or_comm rfl (congrArg some ?_)
        rw [mul_comm (sd f) (sd g)]
        congr 1
        exact Finset.sum_congr rfl fun _ _ => mul_comm _ _
  · intro i
    cases hXi : X i with
    | nan => simp [correlate, hXi, degenerateRow]
    | vals f =>
      by_cases hf : sqnorm f = 0
      · simp [correlate, hXi, degenerateRow, hf]
      · have hv : (∑ t, centered f t * centered f t) / (sd f * sd f) = 1 := by
          rw [sum_centered_mul_self,
            show sd f * sd f = sqnorm f from Real.mul_self_sqrt (sqnorm_nonneg f)]
          exact div_self hf
        simp [correlate, hXi, degenerateRow, hf, hv]

end Connectivity

namespace Alff

/-!
Modelled from the spec: the ALFF Estimator (spec §4.4) is implemented by
`compute_alff` / `init_compute_alff_wf`, whose numerical code is not among
the provided sources (only its tests are).  The model follows the spec's
words: for each unit, (1) discrete Fourier transform, (2) amplitude
(magnitude) spectrum, (3) restriction to the bins whose frequency lies in
`[low_cut, high_cut]`, (4) sum over that band.  Frequencies follow the
`np.fft.fftfreq` convention used by the test (`np.fft.fft`).
-/

/-- The primitive DFT root `exp(-2πi/T)`. -/
noncomputable def w (T : ℕ) : ℂ := Complex.exp (-(2 * Real.pi * Complex.I) / T)

/-- Discrete Fourier transform of one unit's real time series. -/
noncomputable def dft {T : ℕ} (x : Fin T → ℝ) (k : Fin T) : ℂ :=
  ∑ t, (x t : ℂ) * w T ^ (k.val * t.val)

/-- Frequency (in Hz) of bin `k` for repetition time `TR`, following
`np.fft.fftfreq`: bins past the midpoint carry negative frequencies. -/
def freq (T : ℕ) (TR : ℚ) (k : Fin T) : ℚ :=
  if 2 * k.val < T then (k.val : ℚ) / (T * TR) else ((k.val : ℚ) - T) / (T * TR)

/-- The in-band bins: frequency within `[low, high]`. -/
def band (T : ℕ) (TR low high : ℚ) : Finset (Fin T) :=
  Finset.univ.filter (fun k => low ≤ freq T TR k ∧ freq T TR k ≤ high)

/-- Amplitude of a spectrum at bin `k`. -/
noncomputable def ampSpec {T : ℕ} (A : Fin T → ℂ) (k : Fin T) : ℝ := Complex.abs (A k)

/-- ALFF of a spectrum: amplitude summed over the in-band bins. -/
noncomputable def alffSpec {T : ℕ} (A : Fin T → ℂ) (TR low high : ℚ) : ℝ :=
  ∑ k ∈ band T TR low high, ampSpec A k

/-- ALFF of one unit's time series (spec §4.4, steps 1–4). -/
noncomputable def alff {T : ℕ} (x : Fin T → ℝ) (TR low high : ℚ) : ℝ :=
  alffSpec (dft x) TR low high

/-- The mean Fourier coefficient `fft_data.mean()` of the unit's spectrum. -/
noncomputable def meanCoef {T : ℕ} (x : Fin T → ℝ) : ℂ := (∑ k, dft x k) / T

/-- The claim's perturbation (`fft_data[bins] += c * fft_data.mean()` in the
tests): add `c` times the mean Fourier coefficient to the spectrum on the
bins in `S`.  The claim's perturbed signal is the inverse transform of this
spectrum, so the perturbed signal's spectrum is exactly `perturbSpec`. -/
noncomputable def perturbSpec {T : ℕ} (A : Fin T → ℂ) (c : ℝ) (S : Finset (Fin T)) (μ : ℂ) :
    Fin T → ℂ :=
  fun k => if k ∈ S then A k + c * μ else A k

theorem w_four : w 4 = -Complex.I := by
  have harg : (-(2 * (Real.pi : ℂ) * Complex.I) / 4) =
      ((-(Real.pi / 2) : ℝ) : ℂ) * Complex.I := by
    push_cast
    ring
  rw [w, show ((4 : ℕ) : ℂ) = (4 : ℂ) by norm_num, harg, Complex.exp_mul_I,
    ← Complex.ofReal_cos, ← Complex.ofReal_sin,
    Real.cos_neg, Real.sin_neg, Real.cos_pi_div_two, Real.sin_pi_div_two]
  push_cast
  ring

theorem w_four_sq : w 4 ^ 2 = -1 := by
  rw [w_four]
  ring_nf
  simp [Complex.I_sq]

theorem w_four_pow_three : w 4 ^ 3 = Complex.I := by
  rw [pow_succ, w_four_sq, w_four]
  ring

theorem w_four_pow_four : w 4 ^ 4 = 1 := by
  rw [pow_succ, w_four_pow_three, w_four]
  simp [Complex.I_mul_I]

theorem w_four_pow_six : w 4 ^ 6 = -1 := by
  rw [show (6 : ℕ) = 4 + 2 from rfl, pow_add, w_four_pow_four, w_four_sq]
  ring

theorem w_four_pow_nine : w 4 ^ 9 = -Complex.I := by
  rw [show (9 : ℕ) = 4 + 4 + 1 from rfl, pow_add, pow_add, w_four_pow_four, pow_one, w_four]
  ring

/-- The concrete counterexample signal `(1, 0, 3, 0)`. -/
def x4 : Fin 4 → ℝ := fun t => if t = 2 then 3 else if t = 0 then 1 else 0

theorem dft_x4_zero : dft x4 0 = 4 := by
  simp only [dft, Fin.sum_univ_four,
    show x4 0 = 1 from rfl, show x4 1 = 0 from rfl,
    show x4 2 = 3 from rfl, show x4 3 = 0 from rfl,
    show ((0 : Fin 4)).val = 0 from rfl, show ((1 : Fin 4)).val = 1 from rfl,
    show ((2 : Fin 4)).val = 2 from rfl, show ((3 : Fin 4)).val = 3 from rfl]
  norm_num

theorem dft_x4_one : dft x4 1 = -2 := by
  simp only [dft, Fin.sum_univ_four,
    show x4 0 = 1 from rfl, show x4 1 = 0 from rfl,
    show x4 2 = 3 from rfl, show x4 3 = 0 from rfl,
    show ((0 : Fin 4)).val = 0 from rfl, show ((1 : Fin 4)).val = 1 from rfl,
    show ((2 : Fin 4)).val = 2 from rfl, show ((3 : Fin 4)).val = 3 from rfl]
  norm_num [w_four_sq]

theorem dft_x4_two : dft x4 2 = 4 := by
  simp only [dft, Fin.sum_univ_four,
    show x4 0 = 1 from rfl, show x4 1 = 0 from rfl,
    show x4 2 = 3 from rfl, show x4 3 = 0 from rfl,
    show ((0 : Fin 4)).val = 0 from rfl, show ((1 : Fin 4)).val = 1 from rfl,
    show ((2 : Fin 4)).val = 2 from rfl, show ((3 : Fin 4)).val = 3 from rfl]
  norm_num [w_four_pow_four]

theorem dft_x4_three : dft x4 3 = -2 := by
  simp only [dft, Fin.sum_univ_four,
    show x4 0 = 1 from rfl, show x4 1 = 0 from rfl,
    show x4 2 = 3 from rfl, show x4 3 = 0 from rfl,
    show ((0 : Fin 4)).val = 0 from rfl, show ((1 : Fin 4)).val = 1 from rfl,
    show ((2 : Fin 4)).val = 2 from rfl, show ((3 : Fin 4)).val = 3 from rfl]
  norm_num [w_four_pow_six, w_four_pow_nine]

theorem meanCoef_x4 : meanCoef x4 = 1 := by
  rw [meanCoef, Fin.sum_univ_four, dft_x4_zero, dft_x4_one, dft_x4_two, dft_x4_three]
  norm_num

theorem band_tr1 : band 4 1 (1/5) (3/10) = {(1 : Fin 4)} := by
  ext k
  simp only [band, Finset.mem_filter, Finset.mem_univ, true_and, Finset.mem_singleton]
  fin_cases k <;>
    simp [freq, Fin.ext_iff, show (((3 : Fin 4)) : ℕ) = 3 from rfl] <;> norm_num

theorem alff_x4 : alff x4 1 (1/5) (3/10) = 2 := by
  rw [alff, alffSpec, band_tr1, Finset.sum_singleton, ampSpec, dft_x4_one,
    show (-2 : ℂ) = ((-2 : ℝ) : ℂ) by norm_num, Complex.abs_ofReal]
  norm_num

theorem alffSpec_perturbed_x4 :
    alffSpec (perturbSpec (dft x4) 2 {1} (meanCoef x4)) 1 (1/5) (3/10) = 0 := by
  rw [alffSpec, band_tr1, Finset.sum_singleton, ampSpec, perturbSpec]
  rw [if_pos (Finset.mem_singleton_self 1), dft_x4_one, meanCoef_x4]
  norm_num

/-- C4 counterexample: for the signal `(1, 0, 3, 0)` with `TR = 1` and the
valid band `[1/5, 3/10]` (`0 ≤ low < high ≤` Nyquist `1/2`), whose in-band
bins are exactly `{1}`, adding the positive multiple `c = 2` of the mean
Fourier coefficient to the in-band bin — the claim's perturbation — makes
the ALFF strictly *decrease* (from 2 to 0, because `-2 + 2·1 = 0` cancels
the bin), refuting "strictly increases that unit's ALFF". -/
theorem alff_perturb_counterexample :
    (0 : ℝ) < 2
    ∧ (0 : ℚ) ≤ 1/5 ∧ (1/5 : ℚ) < 3/10 ∧ (3/10 : ℚ) ≤ 1/2
    ∧ band 4 1 (1/5) (3/10) = {(1 : Fin 4)}
    ∧ alffSpec (perturbSpec (dft x4) 2 {1} (meanCoef x4)) 1 (1/5) (3/10)
        < alff x4 1 (1/5) (3/10) := by
  refine ⟨by norm_num, by norm_num, by norm_num, by norm_num, band_tr1, ?_⟩
  rw [alffSpec_perturbed_x4, alff_x4]
  norm_num

/-- C4 amended: injecting spectral amplitude strictly inside the band does
strictly increase ALFF once "adding positive spectral amplitude" genuinely
increases amplitude: if the perturbed spectrum's amplitude is at least that
of the signal on every in-band bin and strictly larger on at least one,
then the ALFF strictly increases.  (The mean-coefficient construction need
not have this property, since the added coefficient can cancel a bin; see
the counterexample.) -/
theorem alff_mono_amended (T : ℕ) (TR low high : ℚ) (x : Fin T → ℝ) (A : Fin T → ℂ)
    (hge : ∀ k ∈ band T TR low high, ampSpec (dft x) k ≤ ampSpec A k)
    (hlt : ∃ k ∈ band T TR low high, ampSpec (dft x) k < ampSpec A k) :
    alff x TR low high < alffSpec A TR low high :=
  Finset.sum_lt_sum hge hlt

/-- The all-zeros signal and a spectrum with amplitude 2 at bin 1, for the
C4 witness. -/
def x0w : Fin 4 → ℝ := fun _ => 0

def A0w : Fin 4 → ℂ := fun k => if k = 1 then 2 else 0

theorem dft_x0w (k : Fin 4) : dft x0w k = 0 := by
  simp [dft, x0w]

/-- Witness for the amended C4 theorem: zero signal, perturbed spectrum
with amplitude 2 on the single in-band bin. -/
theorem alff_mono_amended_witness :
    (∀ k ∈ band 4 1 (1/5) (3/10), ampSpec (dft x0w) k ≤ ampSpec A0w k)
    ∧ (∃ k ∈ band 4 1 (1/5) (3/10), ampSpec (dft x0w) k < ampSpec A0w k)
    ∧ alff x0w 1 (1/5) (3/10) < alffSpec A0w 1 (1/5) (3/10) := by
  have hge : ∀ k ∈ band 4 1 (1/5) (3/10), ampSpec (dft x0w) k ≤ ampSpec A0w k := by
    intro k _
    rw [ampSpec, dft_x0w, map_zero]
    exact Complex.abs.nonneg _
  have hlt : ∃ k ∈ band 4 1 (1/5) (3/10), ampSpec (dft x0w) k < ampSpec A0w k := by
    refine ⟨1, by rw [band_tr1]; exact Finset.mem_singleton_self _, ?_⟩
    rw [ampSpec, ampSpec, dft_x0w, map_zero, A0w]
    simp [Complex.abs_two]
  exact ⟨hge, hlt, alff_mono_amended 4 1 (1/5) (3/10) x0w A0w hge hlt⟩

end Alff

namespace Reho

/-!
Modelled from the spec: the ReHo Estimator (spec §4.5) is implemented by
AFNI/Workbench nodes whose numerical code is not among the provided
sources (only its tests are).  The model follows the spec's words: each
series is rank-transformed across time with average ranks for ties;
Kendall's coefficient of concordance W is computed across the unit's and
its neighbors' rank sequences; an empty neighborhood yields NaN (`none`);
the mean ReHo is taken across the units with nonempty neighborhoods.
-/

/-- Average (1-based, ties averaged) rank of entry `t` within series `y`. -/
def rank {n : ℕ} (y : Fin n → ℚ) (t : Fin n) : ℚ :=
  ((Finset.univ.filter (fun s => y s < y t)).card : ℚ)
    + (((Finset.univ.filter (fun s => y s = y t)).card : ℚ) + 1) / 2

/-- Kendall's coefficient of concordance W across the series of the units
in `s`: with `m` series of length `n` and per-timepoint rank sums `R t`,
`W = 12·S / (m²(n³−n))` where `S` is the squared deviation of the rank
sums from their mean `m(n+1)/2`. -/
def kendallW {U n : ℕ} (s : Finset (Fin U)) (x : Fin U → Fin n → ℚ) : ℚ :=
  let m : ℚ := s.card
  let R : Fin n → ℚ := fun t => ∑ i ∈ s, rank (x i) t
  (12 * ∑ t, (R t - m * ((n : ℚ) + 1) / 2) ^ 2) / (m ^ 2 * ((n : ℚ) ^ 3 - n))

/-- ReHo of unit `u`: Kendall's W over `u` together with its neighbors;
an empty neighborhood yields NaN (`none`), not an error. -/
def reho {U n : ℕ} (x : Fin U → Fin n → ℚ) (g : Fin U → Finset (Fin U)) (u : Fin U) :
    Option ℚ :=
  if g u = ∅ then none else some (kendallW (insert u (g u)) x)

/-- Mean ReHo across the units with nonempty neighborhoods. -/
def meanReho {U n : ℕ} (x : Fin U → Fin n → ℚ) (g : Fin U → Finset (Fin U)) : ℚ :=
  let units := Finset.univ.filter (fun u => g u ≠ ∅)
  (∑ u ∈ units, kendallW (insert u (g u)) x) / units.card

/-- The test's noise injection (`_add_noise`:
`noisy_img = image + gauss * 200`): add a noise array to the signal.  Any
real-valued array is a possible realization of the i.i.d. Gaussian draw. -/
def addNoise {U n : ℕ} (x η : Fin U → Fin n → ℚ) : Fin U → Fin n → ℚ :=
  fun u t => x u t + η u t

/-- The increasing 3-point series (1, 2, 3). -/
def s123 : Fin 3 → ℚ := fun t => if t = 0 then 1 else if t = 1 then 2 else 3

/-- The decreasing 3-point series (3, 2, 1). -/
def s321 : Fin 3 → ℚ := fun t => if t = 0 then 3 else if t = 1 then 2 else 1

/-- Two units, perfectly anti-concordant: unit 0 is (1,2,3), unit 1 is
(3,2,1). -/
def xBase : Fin 2 → Fin 3 → ℚ := fun u => if u = 0 then s123 else s321

/-- Two units, perfectly concordant: both are (1,2,3). -/
def xConc : Fin 2 → Fin 3 → ℚ := fun _ => s123

/-- Each of the two units is the other's sole neighbor. -/
def gPair : Fin 2 → Finset (Fin 2) := fun u => if u = 0 then {1} else {0}

/-- A noise realization that turns the anti-concordant `xBase` into the
concordant `xConc`: zero on unit 0, `(-2, 0, 2)` on unit 1. -/
def etaUp : Fin 2 → Fin 3 → ℚ :=
  fun u t => if u = 0 then 0 else if t = 0 then -2 else if t = 1 then 0 else 2

/-- A noise realization that turns the concordant `xConc` into the
anti-concordant `xBase`: zero on unit 0, `(2, 0, -2)` on unit 1. -/
def etaDown : Fin 2 → Fin 3 → ℚ :=
  fun u t => if u = 0 then 0 else if t = 0 then 2 else if t = 1 then 0 else -2

theorem addNoise_up : addNoise xBase etaUp = xConc := by
  funext u t
  fin_cases u <;> fin_cases t <;>
    norm_num [addNoise, xBase, etaUp, xConc, s123, s321, Fin.ext_iff]

theorem addNoise_down : addNoise xConc etaDown = xBase := by
  funext u t
  fin_cases u <;> fin_cases t <;>
    norm_num [addNoise, xBase, etaDown, xConc, s123, s321, Fin.ext_iff]

theorem rank_s123_zero : rank s123 0 = 1 := by
  rw [rank, show (Finset.univ.filter (fun s => s123 s < s123 0)).card = 0 by decide,
    show (Finset.univ.filter (fun s => s123 s = s123 0)).card = 1 by decide]
  norm_num

theorem rank_s123_one : rank s123 1 = 2 := by
  rw [rank, show (Finset.univ.filter (fun s => s123 s < s123 1)).card = 1 by decide,
    show (Finset.univ.filter (fun s => s123 s = s123 1)).card = 1 by decide]
  norm_num

theorem rank_s123_two : rank s123 2 = 3 := by
  rw [rank, show (Finset.univ.filter (fun s => s123 s < s123 2)).card = 2 by decide,
    show (Finset.univ.filter (fun s => s123 s = s123 2)).card = 1 by decide]
  norm_num

theorem rank_s321_zero : rank s321 0 = 3 := by
  rw [rank, show (Finset.univ.filter (fun s => s321 s < s321 0)).card = 2 by decide,
    show (Finset.univ.filter (fun s => s321 s = s321 0)).card = 1 by decide]
  norm_num

theorem rank_s321_one : rank s321 1 = 2 := by
  rw [rank, show (Finset.univ.filter (fun s => s321 s < s321 1)).card = 1 by decide,
    show (Finset.univ.filter (fun s => s321 s = s321 1)).card = 1 by decide]
  norm_num

theorem rank_s321_two : rank s321 2 = 1 := by
  rw [rank, show (Finset.univ.filter (fun s => s321 s < s321 2)).card = 0 by decide,
    show (Finset.univ.filter (fun s => s321 s = s321 2)).card = 1 by decide]
  norm_num

theorem kendallW_pair_xBase : kendallW ({0, 1} : Finset (Fin 2)) xBase = 0 := by
  simp only [kendallW, Finset.sum_pair (show (0 : Fin 2) ≠ 1 by decide), Fin.sum_univ_three,
    show xBase 0 = s123 from rfl, show xBase 1 = s321 from rfl,
    rank_s123_zero, rank_s123_one, rank_s123_two,
    rank_s321_zero, rank_s321_one, rank_s321_two,
    show (({0, 1} : Finset (Fin 2))).card = 2 by decide]
  norm_num

theorem kendallW_pair_xConc : kendallW ({0, 1} : Finset (Fin 2)) xConc = 1 := by
  simp only [kendallW, Finset.sum_pair (show (0 : Fin 2) ≠ 1 by decide), Fin.sum_univ_three,
    show xConc 0 = s123 from rfl, show xConc 1 = s123 from rfl,
    rank_s123_zero, rank_s123_one, rank_s123_two,
    show (({0, 1} : Finset (Fin 2))).card = 2 by decide]
  norm_num

theorem meanReho_pair (x : Fin 2 → Fin 3 → ℚ) :
    meanReho x gPair = (kendallW ({0, 1} : Finset (Fin 2)) x
      + kendallW ({0, 1} : Finset (Fin 2)) x) / 2 := by
  simp only [meanReho]
  rw [show Finset.univ.filter (fun u => gPair u ≠ ∅) = ({0, 1} : Finset (Fin 2)) by decide,
    Finset.sum_pair (show (0 : Fin 2) ≠ 1 by decide),
    show gPair 0 = {1} from rfl, show gPair 1 = {0} from rfl,
    show insert (0 : Fin 2) ({1} : Finset (Fin 2)) = {0, 1} by decide,
    show insert (1 : Fin 2) ({0} : Finset (Fin 2)) = {0, 1} by decide,
    show (({0, 1} : Finset (Fin 2))).card = 2 by decide]
  norm_num

theorem meanReho_xBase : meanReho xBase gPair = 0 := by
  rw [meanReho_pair, kendallW_pair_xBase]
  norm_num

theorem meanReho_xConc : meanReho xConc gPair = 1 := by
  rw [meanReho_pair, kendallW_pair_xConc]
  norm_num

/-- C8 counterexample: for the two-unit signal with unit 0 = (1,2,3) and
unit 1 = (3,2,1), each the other's sole neighbor, adding the noise
realization `etaUp` (zero on unit 0, (-2,0,2) on unit 1 — every real array
is a possible draw of i.i.d. Gaussian noise) strictly *increases* the mean
ReHo of the units with nonempty neighborhoods from 0 to 1, refuting "must
not increase". -/
theorem reho_noise_counterexample :
    meanReho (addNoise xBase etaUp) gPair > meanReho xBase gPair := by
  rw [addNoise_up, meanReho_xBase, meanReho_xConc]
  norm_num

/-- C8 amended: adding noise to a signal's units does not decrease the mean
ReHo pointwise in general — particular realizations strictly increase it
and others strictly decrease it, so the claimed monotone decrease can only
be a distributional (in-expectation) property, not one of each
realization. -/
theorem reho_noise_both_directions :
    meanReho (addNoise xBase etaUp) gPair > meanReho xBase gPair
    ∧ meanReho (addNoise xConc etaDown) gPair < meanReho xConc gPair := by
  constructor
  · rw [addNoise_up, meanReho_xBase, meanReho_xConc]
    norm_num
  · rw [addNoise_down, meanReho_xBase, meanReho_xConc]
    norm_num

end Reho
